import Mathlib

/-
Verification development for stickers-l2t-bot (src/functions/src).
Shallow embedding of:
  - concurrentDo, the rate-limited batch scheduler (utils.ts lines 77-134),
    as a small-step transition system over the JS event loop: the synchronous
    part of the call is the function init, and the asynchronous callbacks
    (promise then/catch handlers, setInterval ticks, setTimeout firing) are
    the events of the system;
  - the retry loops downloadSticker / uploadSticker / addSticker
    (index.ts lines 98-117, 140-163, 196-225);
  - the per-user session gate processingChat and the document handler
    (index.ts lines 25, 29-242);
  - the validators isLineSticker / isLineStickerSet (utils.ts lines 4-31);
  - the cache partition of the handler (index.ts lines 44-52);
  - the sequential action list of the pipeline (index.ts lines 37-64).
-/

namespace StickersL2T

/- ===================================================================
   concurrentDo (utils.ts 77-134)

   JS state captured by Config:
   - queue: the array `queue`, one cell per index 0 .. pLimit-1; a cell is
     none when queue[i] is undefined, some (t, true) while the chained
     promise of task t is pending, and some (t, false) after its catch
     handler ran (the catch handler does not clear queue[i]).
   - taskToBeExcuted: the copied task array; pop() takes the LAST element.
   - started: instrumentation, the tasks handed to execution in dispatch
     order (each `taskToBeExcuted.pop()!()` appends here).
   - settled: none while the outer promise is pending, some true once
     resolve ran first, some false once reject ran first; later calls to
     resolve/reject are no-ops, which settle models with Option.getD.
   - intervalActive / timeoutActive: whether the setInterval timer and the
     setTimeout timer are currently armed.
   Tasks are identified by their position in the input list.
   =================================================================== -/

/-- A cell of the queue array. -/
abbrev Slot := Option (Nat × Bool)

structure Config where
  queue : List Slot
  taskToBeExcuted : List Nat
  started : List Nat
  settled : Option Bool
  intervalActive : Bool
  timeoutActive : Bool
deriving DecidableEq

/-- Body of the for loop of fillQueue (utils.ts 113-132): walk the queue
cells in index order; an empty cell takes the LAST remaining task
(`taskToBeExcuted.pop()`), which starts it and logs the dispatch.
Returns the new queue, the new taskToBeExcuted and the new dispatch log. -/
def fillAux : List Slot → List Nat → List Nat → List Slot × List Nat × List Nat
  | [], rem, log => ([], rem, log)
  | some s :: rest, rem, log =>
    let r := fillAux rest rem log
    (some s :: r.1, r.2)
  | none :: rest, rem, log =>
    match rem.getLast? with
    | none =>
      let r := fillAux rest rem log
      (none :: r.1, r.2)
    | some t =>
      let r := fillAux rest rem.dropLast (log ++ [t])
      (some (t, true) :: r.1, r.2)

/-- fillQueue (utils.ts 113-132). -/
def fillQueue (c : Config) : Config :=
  let r := fillAux c.queue c.taskToBeExcuted c.started
  { c with queue := r.1, taskToBeExcuted := r.2.1, started := r.2.2 }

/-- cleanup (utils.ts 108-111): clearInterval and clearTimeout. -/
def cleanup (c : Config) : Config :=
  { c with intervalActive := false, timeoutActive := false }

/-- Settle the outer promise: resolve/reject is a no-op once settled. -/
def settle (c : Config) (b : Bool) : Config :=
  { c with settled := some (c.settled.getD b) }

/-- isQueueEmpty (utils.ts 103-106). -/
def isQueueEmpty (q : List Slot) : Bool :=
  q.all Option.isNone

/-- The then-handler of the promise in cell i (utils.ts 118-124): clear the
cell, and when no task remains and the queue is empty, cleanup and resolve. -/
def completeSlot (c : Config) (i : Nat) : Config :=
  match c.queue.get? i with
  | some (some (_, true)) =>
    let q := c.queue.set i none
    let c' := { c with queue := q }
    if c'.taskToBeExcuted = [] ∧ isQueueEmpty q = true then settle (cleanup c') true
    else c'
  | _ => c

/-- The catch-handler of the promise in cell i (utils.ts 125-128): cleanup
and reject. The cell keeps its settled chain, so it is never refilled. -/
def failSlot (c : Config) (i : Nat) : Config :=
  match c.queue.get? i with
  | some (some (t, true)) =>
    settle (cleanup { c with queue := c.queue.set i (some (t, false)) }) false
  | _ => c

/-- One firing of the setInterval timer (utils.ts 93-95): it only calls
fillQueue, with no check of settled. -/
def doTick (c : Config) : Config :=
  if c.intervalActive then fillQueue c else c

/-- Firing of the setTimeout timer (utils.ts 97-101): it clears only the
timeout timer itself and rejects; the interval timer is NOT cleared here. -/
def doTimeout (c : Config) : Config :=
  if c.timeoutActive then settle { c with timeoutActive := false } false else c

inductive Event
  | complete (i : Nat)
  | fail (i : Nat)
  | tick
  | timeoutFire
deriving DecidableEq

def step (c : Config) : Event → Config
  | .complete i => completeSlot c i
  | .fail i => failSlot c i
  | .tick => doTick c
  | .timeoutFire => doTimeout c

/-- The synchronous part of concurrentDo (utils.ts 83-101): the early
resolve for an empty task list happens before any timer is created;
otherwise the first fillQueue call runs synchronously, then the interval
timer is armed, and the timeout timer is armed when a timeout was given.
limit plays the role of pLimit, since every call site passes a number. -/
def init (tasks : List Nat) (limit : Nat) (hasTimeout : Bool) : Config :=
  if tasks = [] then
    { queue := [], taskToBeExcuted := [], started := [], settled := some true,
      intervalActive := false, timeoutActive := false }
  else
    let c0 : Config :=
      { queue := List.replicate limit none, taskToBeExcuted := tasks, started := [],
        settled := none, intervalActive := false, timeoutActive := false }
    let c1 := fillQueue c0
    { c1 with intervalActive := true, timeoutActive := hasTimeout }

/-- An execution of the batch: the synchronous call followed by a sequence
of event-loop callbacks. -/
def run (c : Config) (evs : List Event) : Config :=
  evs.foldl step c

/-- Events of an execution in which every task succeeds and the timeout
never elapses. -/
def goodEv : Event → Bool
  | .complete _ => true
  | .tick => true
  | _ => false

/-- Cells holding a pending task. -/
def pendingP : Slot → Bool
  | some (_, true) => true
  | _ => false

/-- Number of tasks outstanding at an instant. -/
def countPending (c : Config) : Nat :=
  c.queue.countP pendingP

/-- A queue cell is either empty or holds a pending task; cells holding a
settled chain, some (t, false), only appear after a task failure. -/
def slotOk (s : Slot) : Prop := s = none ∨ ∃ t, s = some (t, true)

theorem fillAux_length (q : List Slot) (rem log : List Nat) :
    (fillAux q rem log).1.length = q.length := by
  induction q generalizing rem log with
  | nil => rfl
  | cons s rest ih =>
    cases s with
    | some p => simp [fillAux, ih]
    | none =>
      cases h : rem.getLast? with
      | none => simp [fillAux, h, ih]
      | some t => simp [fillAux, h, ih]

theorem fillAux_nil_rem (q : List Slot) (log : List Nat) :
    fillAux q [] log = (q, [], log) := by
  induction q with
  | nil => rfl
  | cons s rest ih =>
    cases s with
    | some p => simp [fillAux, ih]
    | none => simp [fillAux, ih]

theorem fillAux_consumed (q : List Slot) (rem log : List Nat) :
    (fillAux q rem log).2.1 ++ ((fillAux q rem log).2.2).reverse = rem ++ log.reverse := by
  induction q generalizing rem log with
  | nil => rfl
  | cons s rest ih =>
    cases s with
    | some p => simpa [fillAux] using ih rem log
    | none =>
      cases h : rem.getLast? with
      | none => simpa [fillAux, h] using ih rem log
      | some t =>
        have hd : rem.dropLast ++ [t] = rem :=
          List.dropLast_append_getLast? t (by simp [h])
        have ih' := ih rem.dropLast (log ++ [t])
        simp only [fillAux, h]
        rw [ih', ← hd]
        simp

theorem fillAux_none_mem (q : List Slot) (rem log : List Nat)
    (hm : none ∈ (fillAux q rem log).1) : (fillAux q rem log).2.1 = [] := by
  induction q generalizing rem log with
  | nil => simp [fillAux] at hm
  | cons s rest ih =>
    cases s with
    | some p =>
      simp only [fillAux, List.mem_cons] at hm
      rcases hm with hm | hm
      · exact absurd hm (by simp)
      · simpa [fillAux] using ih rem log hm
    | none =>
      cases h : rem.getLast? with
      | none =>
        have : rem = [] := by
          cases rem with
          | nil => rfl
          | cons a as => simp [List.getLast?_eq_getLast] at h
        subst this
        simp [fillAux, fillAux_nil_rem]
      | some t =>
        simp only [fillAux, h, List.mem_cons] at hm
        rcases hm with hm | hm
        · exact absurd hm (by simp)
        · simpa [fillAux, h] using ih rem.dropLast (log ++ [t]) hm

theorem fillAux_slotOk (q : List Slot) (rem log : List Nat)
    (hq : ∀ s ∈ q, slotOk s) : ∀ s ∈ (fillAux q rem log).1, slotOk s := by
  induction q generalizing rem log with
  | nil =>
    simp only [fillAux]
    exact hq
  | cons s rest ih =>
    cases s with
    | some p =>
      intro x hx
      simp only [fillAux, List.mem_cons] at hx
      rcases hx with hx | hx
      · exact hq _ (by simp [hx])
      · exact ih rem log (fun y hy => hq y (List.mem_cons_of_mem _ hy)) x hx
    | none =>
      cases h : rem.getLast? with
      | none =>
        intro x hx
        simp only [fillAux, h, List.mem_cons] at hx
        rcases hx with hx | hx
        · exact Or.inl hx
        · exact ih rem log (fun y hy => hq y (List.mem_cons_of_mem _ hy)) x hx
      | some t =>
        intro x hx
        simp only [fillAux, h, List.mem_cons] at hx
        rcases hx with hx | hx
        · exact Or.inr ⟨t, hx⟩
        · exact ih rem.dropLast (log ++ [t])
            (fun y hy => hq y (List.mem_cons_of_mem _ hy)) x hx

theorem fillAux_counts (q : List Slot) (rem log : List Nat) :
    (fillAux q rem log).2.1.length
        = rem.length - min (q.countP Option.isNone) rem.length ∧
    (fillAux q rem log).2.2.length
        = log.length + min (q.countP Option.isNone) rem.length ∧
    (fillAux q rem log).1.countP Option.isNone
        = q.countP Option.isNone - min (q.countP Option.isNone) rem.length := by
  induction q generalizing rem log with
  | nil => simp [fillAux]
  | cons s rest ih =>
    cases s with
    | some p =>
      have := ih rem log
      simpa [fillAux, List.countP_cons] using this
    | none =>
      cases h : rem.getLast? with
      | none =>
        have hrem : rem = [] := by
          cases rem with
          | nil => rfl
          | cons a as => simp [List.getLast?_eq_getLast] at h
        subst hrem
        simp [fillAux_nil_rem]
      | some t =>
        have hd : rem.dropLast ++ [t] = rem :=
          List.dropLast_append_getLast? t (by simp [h])
        have hlen : rem.length = rem.dropLast.length + 1 := by
          conv_lhs => rw [← hd]
          simp
        obtain ⟨ih1, ih2, ih3⟩ := ih rem.dropLast (log ++ [t])
        have hmin : min (rest.countP Option.isNone + 1) (rem.dropLast.length + 1)
            = min (rest.countP Option.isNone) rem.dropLast.length + 1 :=
          Nat.succ_min_succ _ _
        have hc : List.countP Option.isNone (none :: rest)
            = rest.countP Option.isNone + 1 := by
          simp [List.countP_cons]
        have hc2 : List.countP Option.isNone
              (some (t, true) :: (fillAux rest rem.dropLast (log ++ [t])).1)
            = List.countP Option.isNone (fillAux rest rem.dropLast (log ++ [t])).1 := by
          simp [List.countP_cons]
        refine ⟨?_, ?_, ?_⟩
        · simp only [fillAux, h]
          rw [hc, hlen, hmin, ih1]
          omega
        · simp only [fillAux, h]
          rw [hc, hlen, hmin, ih2]
          simp only [List.length_append, List.length_cons, List.length_nil]
          omega
        · simp only [fillAux, h]
          rw [hc2, hc, hlen, hmin, ih3]
          omega

/- ===== preservation lemmas ===== -/

/-- The tasks not yet dispatched followed by the reversed dispatch log are
exactly the input list: each pop() moves the last remaining task to the log. -/
def consumedInv (tasks : List Nat) (c : Config) : Prop :=
  c.taskToBeExcuted ++ c.started.reverse = tasks

theorem completeSlot_tasks_started (c : Config) (i : Nat) :
    (completeSlot c i).taskToBeExcuted = c.taskToBeExcuted ∧
    (completeSlot c i).started = c.started := by
  unfold completeSlot
  split
  · dsimp only
    split
    · exact ⟨rfl, rfl⟩
    · exact ⟨rfl, rfl⟩
  · exact ⟨rfl, rfl⟩

theorem failSlot_tasks_started (c : Config) (i : Nat) :
    (failSlot c i).taskToBeExcuted = c.taskToBeExcuted ∧
    (failSlot c i).started = c.started := by
  unfold failSlot
  split
  · exact ⟨rfl, rfl⟩
  · exact ⟨rfl, rfl⟩

theorem doTimeout_tasks_started (c : Config) :
    (doTimeout c).taskToBeExcuted = c.taskToBeExcuted ∧
    (doTimeout c).started = c.started := by
  unfold doTimeout
  split
  · exact ⟨rfl, rfl⟩
  · exact ⟨rfl, rfl⟩

theorem step_consumedInv (tasks : List Nat) (c : Config) (e : Event)
    (h : consumedInv tasks c) : consumedInv tasks (step c e) := by
  cases e with
  | complete i =>
    show consumedInv tasks (completeSlot c i)
    unfold consumedInv
    rw [(completeSlot_tasks_started c i).1, (completeSlot_tasks_started c i).2]
    exact h
  | fail i =>
    show consumedInv tasks (failSlot c i)
    unfold consumedInv
    rw [(failSlot_tasks_started c i).1, (failSlot_tasks_started c i).2]
    exact h
  | tick =>
    show consumedInv tasks (doTick c)
    unfold doTick
    split
    · unfold consumedInv fillQueue
      dsimp only
      rw [fillAux_consumed]
      exact h
    · exact h
  | timeoutFire =>
    show consumedInv tasks (doTimeout c)
    unfold consumedInv
    rw [(doTimeout_tasks_started c).1, (doTimeout_tasks_started c).2]
    exact h

theorem completeSlot_queue_length (c : Config) (i : Nat) :
    (completeSlot c i).queue.length = c.queue.length := by
  unfold completeSlot
  split
  · dsimp only
    split
    · show (c.queue.set _ none).length = c.queue.length
      exact List.length_set c.queue _ _
    · show (c.queue.set _ none).length = c.queue.length
      exact List.length_set c.queue _ _
  · rfl

theorem failSlot_queue_length (c : Config) (i : Nat) :
    (failSlot c i).queue.length = c.queue.length := by
  unfold failSlot
  split
  · show (c.queue.set _ _).length = c.queue.length
    exact List.length_set c.queue _ _
  · rfl

theorem step_queue_length (c : Config) (e : Event) :
    (step c e).queue.length = c.queue.length := by
  cases e with
  | complete i => exact completeSlot_queue_length c i
  | fail i => exact failSlot_queue_length c i
  | tick =>
    show (doTick c).queue.length = c.queue.length
    unfold doTick
    split
    · unfold fillQueue
      dsimp only
      rw [fillAux_length]
    · rfl
  | timeoutFire =>
    show (doTimeout c).queue.length = c.queue.length
    unfold doTimeout
    split
    · rfl
    · rfl

theorem step_settled_good (c : Config) (e : Event) (hg : goodEv e = true)
    (h : c.settled ≠ some false) : (step c e).settled ≠ some false := by
  cases e with
  | complete i =>
    show (completeSlot c i).settled ≠ some false
    unfold completeSlot
    split
    · dsimp only
      split
      · show some (c.settled.getD true) ≠ some false
        cases hs : c.settled with
        | none => simp
        | some b => cases b <;> simp_all
      · exact h
    · exact h
  | fail i => simp [goodEv] at hg
  | tick =>
    show (doTick c).settled ≠ some false
    unfold doTick
    split
    · exact h
    · exact h
  | timeoutFire => simp [goodEv] at hg

theorem run_cons (c : Config) (e : Event) (evs : List Event) :
    run c (e :: evs) = run (step c e) evs := rfl

theorem run_preserve {P : Config → Prop}
    (hstep : ∀ c e, P c → P (step c e)) :
    ∀ (evs : List Event) (c : Config), P c → P (run c evs) := by
  intro evs
  induction evs with
  | nil => intro c h; exact h
  | cons e evs ih => intro c h; exact ih _ (hstep c e h)

theorem run_preserve_good {P : Config → Prop}
    (hstep : ∀ c e, goodEv e = true → P c → P (step c e)) :
    ∀ (evs : List Event), (∀ e ∈ evs, goodEv e = true) → ∀ c, P c → P (run c evs) := by
  intro evs
  induction evs with
  | nil => intro _ c h; exact h
  | cons e evs ih =>
    intro hg c h
    exact ih (fun x hx => hg x (List.mem_cons_of_mem _ hx)) _
      (hstep c e (hg e (List.mem_cons_self _ _)) h)

theorem init_consumedInv (tasks : List Nat) (L : Nat) (ht : Bool) :
    consumedInv tasks (init tasks L ht) := by
  unfold init consumedInv
  split
  · simp [*]
  · show (fillQueue _).taskToBeExcuted ++ (fillQueue _).started.reverse = tasks
    unfold fillQueue
    dsimp only
    rw [fillAux_consumed]
    simp

theorem init_queue_length_le (tasks : List Nat) (L : Nat) (ht : Bool) :
    (init tasks L ht).queue.length ≤ L := by
  unfold init
  split
  · simp
  · show (fillQueue _).queue.length ≤ L
    unfold fillQueue
    dsimp only
    rw [fillAux_length]
    simp

/- ===== claim theorems about dispatch order, synchronous start, timeout ===== -/

/-- C2 (amended): in every execution of a scheduler batch, the list of tasks
not yet handed to execution followed by the reversal of the dispatch log is
the input list — so the scheduler dispatches tasks in the REVERSE of the
input order (fillQueue obtains each task with taskToBeExcuted.pop(), which
removes the LAST element), and in particular a fully dispatched batch has
started the input tasks in exactly reversed order; the append-remaining
stage therefore submits the remaining items in reverse of their original
order as well. -/
theorem concurrentDo_dispatch_order (tasks : List Nat) (L : Nat) (ht : Bool)
    (evs : List Event) :
    (run (init tasks L ht) evs).taskToBeExcuted
      ++ ((run (init tasks L ht) evs).started).reverse = tasks :=
  run_preserve (fun c e h => step_consumedInv tasks c e h) evs _ (init_consumedInv tasks L ht)

/-- C2 (counterexample): a batch of the two tasks [0, 1] under limit 2
synchronously dispatches task 1 first: the submission order [1, 0] is not
the input order [0, 1]. -/
theorem concurrentDo_dispatch_order_cex :
    (init [0, 1] 2 false).started = [1, 0] ∧ (init [0, 1] 2 false).started ≠ [0, 1] := by
  decide

/-- C10 (amended): the synchronous part of a concurrentDo call dispatches
exactly min N L tasks before any interval tick — namely the LAST min N L
tasks of the input list, in reverse list order (the interval timer only
refills cells freed afterwards). -/
theorem concurrentDo_sync_start (tasks : List Nat) (L : Nat) (ht : Bool) :
    (init tasks L ht).started.length = min tasks.length L ∧
    (init tasks L ht).taskToBeExcuted ++ ((init tasks L ht).started).reverse = tasks := by
  refine ⟨?_, init_consumedInv tasks L ht⟩
  unfold init
  split
  · simp [*]
  · show (fillQueue _).started.length = min tasks.length L
    unfold fillQueue
    dsimp only
    have h := (fillAux_counts (List.replicate L none) tasks []).2.1
    have hrep : (List.replicate L (none : Slot)).countP Option.isNone = L := by
      simp [List.countP_replicate]
    rw [hrep] at h
    rw [h]
    simp [Nat.min_comm]

/-- C10 (counterexample): for the task list [0, 1] under limit 1, the task
dispatched synchronously during the call is task 1, not the first task 0 of
the list. -/
theorem concurrentDo_sync_start_cex :
    (init [0, 1] 1 false).started = [1] ∧ (init [0, 1] 1 false).started ≠ [0] := by
  decide

/-- C3 (code bug): in a batch of the two tasks [0, 1] with limit 1 and a
timeout, firing the timeout rejects the batch but leaves the interval timer
armed — the timeout handler of concurrentDo (utils.ts 97-101) clears only
the timeout timer and never calls clearInterval — and a later tick still
dispatches task 0 even though the batch has already rejected. -/
theorem concurrentDo_timeout_keeps_interval :
    (run (init [0, 1] 1 true) [.timeoutFire]).settled = some false ∧
    (run (init [0, 1] 1 true) [.timeoutFire]).intervalActive = true ∧
    (run (init [0, 1] 1 true) [.timeoutFire, .complete 0, .tick]).started = [1, 0] ∧
    (run (init [0, 1] 1 true) [.timeoutFire, .complete 0, .tick]).settled = some false := by
  decide

/- ===== draining a batch of all-succeeding tasks ===== -/

def queueOk (c : Config) : Prop := ∀ s ∈ c.queue, slotOk s

theorem exists_pending (c : Config) (h : 0 < countPending c) :
    ∃ i t, c.queue.get? i = some (some (t, true)) := by
  unfold countPending at h
  rw [List.countP_pos_iff] at h
  obtain ⟨s, hs, hp⟩ := h
  obtain ⟨n, hn⟩ := List.getElem?_of_mem hs
  cases s with
  | none => simp [pendingP] at hp
  | some p =>
    obtain ⟨t, b⟩ := p
    cases b with
    | false => simp [pendingP] at hp
    | true => exact ⟨n, t, by rw [List.get?_eq_getElem?]; exact hn⟩

theorem countPending_set_none (q : List Slot) (i t : Nat)
    (hi : q.get? i = some (some (t, true))) :
    (q.set i none).countP pendingP + 1 = q.countP pendingP := by
  rw [List.get?_eq_getElem?] at hi
  obtain ⟨hlt, hget⟩ := List.getElem?_eq_some_iff.mp hi
  rw [List.countP_set pendingP q i none hlt, hget]
  have hcp : 0 < q.countP pendingP := by
    rw [List.countP_pos_iff]
    exact ⟨some (t, true), by rw [← hget]; exact List.getElem_mem hlt, by simp [pendingP]⟩
  simp [pendingP]
  omega

theorem countNone_set_none (q : List Slot) (i t : Nat)
    (hi : q.get? i = some (some (t, true))) :
    (q.set i none).countP Option.isNone = q.countP Option.isNone + 1 := by
  rw [List.get?_eq_getElem?] at hi
  obtain ⟨hlt, hget⟩ := List.getElem?_eq_some_iff.mp hi
  rw [List.countP_set Option.isNone q i none hlt, hget]
  simp

theorem queueOk_set_none (q : List Slot) (i : Nat)
    (h : ∀ s ∈ q, slotOk s) : ∀ s ∈ q.set i none, slotOk s := by
  intro s hs
  rcases List.mem_or_eq_of_mem_set hs with hs | hs
  · exact h s hs
  · exact Or.inl hs

theorem countP_pending_none (q : List Slot) (hok : ∀ s ∈ q, slotOk s) :
    q.countP pendingP + q.countP Option.isNone = q.length := by
  induction q with
  | nil => rfl
  | cons s rest ih =>
    have hok' : ∀ y ∈ rest, slotOk y := fun y hy => hok y (List.mem_cons_of_mem _ hy)
    have hrec := ih hok'
    rcases hok s (List.mem_cons_self _ _) with h | ⟨t, h⟩ <;> subst h <;>
      simp [List.countP_cons, pendingP] <;> omega

theorem isQueueEmpty_of (q : List Slot) (hok : ∀ s ∈ q, slotOk s)
    (h : q.countP pendingP = 0) : isQueueEmpty q = true := by
  unfold isQueueEmpty
  rw [List.all_eq_true]
  intro s hs
  rcases hok s hs with h1 | ⟨t, h1⟩
  · simp [h1]
  · exfalso
    rw [List.countP_eq_zero] at h
    exact h s hs (by simp [h1, pendingP])

theorem isQueueEmpty_false (q : List Slot) (h : 0 < q.countP pendingP) :
    isQueueEmpty q = false := by
  rw [List.countP_pos_iff] at h
  obtain ⟨s, hs, hp⟩ := h
  unfold isQueueEmpty
  rw [Bool.eq_false_iff]
  intro hall
  rw [List.all_eq_true] at hall
  have := hall s hs
  cases s with
  | none => simp [pendingP] at hp
  | some p => simp at this

/-- Completing a pending cell when work remains, or when other cells are
still pending, just clears the cell. -/
theorem completeSlot_noResolve (c : Config) (i t : Nat)
    (hi : c.queue.get? i = some (some (t, true)))
    (hcond : ¬(c.taskToBeExcuted = [] ∧ isQueueEmpty (c.queue.set i none) = true)) :
    completeSlot c i = { c with queue := c.queue.set i none } := by
  unfold completeSlot
  rw [hi]
  dsimp only
  rw [if_neg hcond]

/-- Completing the last pending cell with nothing left to do resolves the
batch and releases both timers. -/
theorem completeSlot_resolve (c : Config) (i t : Nat)
    (hi : c.queue.get? i = some (some (t, true)))
    (hrem : c.taskToBeExcuted = [])
    (hempty : isQueueEmpty (c.queue.set i none) = true) :
    completeSlot c i = settle (cleanup { c with queue := c.queue.set i none }) true := by
  unfold completeSlot
  rw [hi]
  dsimp only
  rw [if_pos ⟨hrem, hempty⟩]

/-- Phase two of the canonical schedule: with no task left to dispatch,
completing the pending cells one by one resolves the batch. -/
theorem drainB (k : Nat) :
    ∀ c : Config, countPending c = k + 1 → c.taskToBeExcuted = [] →
    c.settled = none → queueOk c →
    ∃ evs, (∀ e ∈ evs, goodEv e = true) ∧
      (run c evs).settled = some true ∧ (run c evs).taskToBeExcuted = [] := by
  induction k with
  | zero =>
    intro c hcp hrem hset hok
    obtain ⟨i, t, hi⟩ := exists_pending c (by omega)
    have hq0 : (c.queue.set i none).countP pendingP = 0 := by
      have := countPending_set_none c.queue i t hi
      unfold countPending at hcp
      omega
    have hempty : isQueueEmpty (c.queue.set i none) = true :=
      isQueueEmpty_of _ (queueOk_set_none _ _ hok) hq0
    refine ⟨[.complete i], by simp [goodEv], ?_, ?_⟩
    · show (completeSlot c i).settled = some true
      rw [completeSlot_resolve c i t hi hrem hempty]
      simp [settle, cleanup, hset]
    · show (completeSlot c i).taskToBeExcuted = []
      rw [completeSlot_resolve c i t hi hrem hempty]
      simpa [settle, cleanup] using hrem
  | succ k ih =>
    intro c hcp hrem hset hok
    obtain ⟨i, t, hi⟩ := exists_pending c (by omega)
    have hq' : (c.queue.set i none).countP pendingP = k + 1 := by
      have := countPending_set_none c.queue i t hi
      unfold countPending at hcp
      omega
    have hfalse : isQueueEmpty (c.queue.set i none) = false :=
      isQueueEmpty_false _ (by omega)
    have hstep : completeSlot c i = { c with queue := c.queue.set i none } :=
      completeSlot_noResolve c i t hi (by
        rintro ⟨h1, h2⟩
        rw [hfalse] at h2
        cases h2)
    obtain ⟨evs, hg, h1, h2⟩ := ih { c with queue := c.queue.set i none }
      (by unfold countPending; exact hq') hrem hset
      (fun s hs => queueOk_set_none c.queue i hok s hs)
    refine ⟨.complete i :: evs, ?_, ?_, ?_⟩
    · intro e he
      rcases List.mem_cons.mp he with he | he
      · subst he; rfl
      · exact hg e he
    · rw [run_cons]
      show (run (completeSlot c i) evs).settled = some true
      rw [hstep]
      exact h1
    · rw [run_cons]
      show (run (completeSlot c i) evs).taskToBeExcuted = []
      rw [hstep]
      exact h2

/-- Phase one of the canonical schedule: while tasks remain, complete one
pending cell and tick so that fillQueue refills it. -/
theorem drainA (n : Nat) :
    ∀ c : Config, c.taskToBeExcuted.length = n → c.settled = none →
    c.intervalActive = true → 0 < countPending c → queueOk c →
    (∀ s ∈ c.queue, s = none → c.taskToBeExcuted = []) →
    ∃ evs, (∀ e ∈ evs, goodEv e = true) ∧
      (run c evs).settled = some true ∧ (run c evs).taskToBeExcuted = [] := by
  induction n with
  | zero =>
    intro c hn hset _ hcp hok _
    have hrem : c.taskToBeExcuted = [] := List.length_eq_zero.mp hn
    obtain ⟨evs, hg, h1, h2⟩ := drainB (countPending c - 1) c (by omega) hrem hset hok
    exact ⟨evs, hg, h1, h2⟩
  | succ n ih =>
    intro c hn hset hint hcp hok hfull
    have hremne : c.taskToBeExcuted ≠ [] := by
      intro h
      rw [h] at hn
      cases hn
    have hnone : ∀ s ∈ c.queue, s ≠ none := fun s hs h => hremne (hfull s hs h)
    obtain ⟨i, t, hi⟩ := exists_pending c hcp
    have hstep : completeSlot c i = { c with queue := c.queue.set i none } :=
      completeSlot_noResolve c i t hi (by rintro ⟨h1, _⟩; exact hremne h1)
    have hcn0 : c.queue.countP Option.isNone = 0 := by
      rw [List.countP_eq_zero]
      intro s hs hp
      exact hnone s hs (Option.isNone_iff_eq_none.mp hp)
    have hcn1 : (c.queue.set i none).countP Option.isNone = 1 := by
      rw [countNone_set_none c.queue i t hi, hcn0]
    set c1 : Config := { c with queue := c.queue.set i none } with hc1
    have htick : doTick c1 = fillQueue c1 := by
      unfold doTick
      rw [if_pos]
      exact hint
    obtain ⟨r1, r2, r3⟩ := fillAux_counts c1.queue c1.taskToBeExcuted c1.started
    have hmin1 : min (c1.queue.countP Option.isNone) c1.taskToBeExcuted.length = 1 := by
      show min ((c.queue.set i none).countP Option.isNone) c.taskToBeExcuted.length = 1
      rw [hcn1, hn]
      omega
    have hq2ok : queueOk (fillQueue c1) := by
      intro s hs
      exact fillAux_slotOk c1.queue c1.taskToBeExcuted c1.started
        (fun y hy => queueOk_set_none c.queue i hok y hy) s hs
    have hq2len : (fillQueue c1).taskToBeExcuted.length = n := by
      show (fillAux c1.queue c1.taskToBeExcuted c1.started).2.1.length = n
      rw [r1, hmin1]
      show c.taskToBeExcuted.length - 1 = n
      omega
    have hq2cn : (fillQueue c1).queue.countP Option.isNone = 0 := by
      show (fillAux c1.queue c1.taskToBeExcuted c1.started).1.countP Option.isNone = 0
      rw [r3, hmin1, hcn1]
    have hq2cp : 0 < countPending (fillQueue c1) := by
      have hlen : (fillQueue c1).queue.length = c1.queue.length := by
        show (fillAux c1.queue c1.taskToBeExcuted c1.started).1.length = c1.queue.length
        exact fillAux_length _ _ _
      have hsum := countP_pending_none (fillQueue c1).queue hq2ok
      rw [hq2cn, hlen] at hsum
      have hipos : 0 < c1.queue.length := by
        rw [List.get?_eq_getElem?] at hi
        have := (List.getElem?_eq_some_iff.mp hi).1
        show 0 < (c.queue.set i none).length
        rw [List.length_set]
        omega
      unfold countPending
      omega
    have hq2full : ∀ s ∈ (fillQueue c1).queue, s = none →
        (fillQueue c1).taskToBeExcuted = [] := by
      intro s hs hsn
      subst hsn
      exact fillAux_none_mem c1.queue c1.taskToBeExcuted c1.started hs
    obtain ⟨evs, hg, h1, h2⟩ := ih (fillQueue c1) hq2len
      (by show c.settled = none; exact hset)
      (by show c.intervalActive = true; exact hint)
      hq2cp hq2ok hq2full
    refine ⟨.complete i :: .tick :: evs, ?_, ?_, ?_⟩
    · intro e he
      rcases List.mem_cons.mp he with he | he
      · subst he; rfl
      rcases List.mem_cons.mp he with he | he
      · subst he; rfl
      · exact hg e he
    · rw [run_cons, run_cons]
      show (run (doTick (completeSlot c i)) evs).settled = some true
      rw [hstep, htick]
      exact h1
    · rw [run_cons, run_cons]
      show (run (doTick (completeSlot c i)) evs).taskToBeExcuted = []
      rw [hstep, htick]
      exact h2

/- ===== facts about the synchronous part of a non-empty batch ===== -/

theorem init_settled_ne (tasks : List Nat) (L : Nat) (ht : Bool) (h : tasks ≠ []) :
    (init tasks L ht).settled = none := by
  unfold init
  rw [if_neg h]
  rfl

theorem init_interval_ne (tasks : List Nat) (L : Nat) (ht : Bool) (h : tasks ≠ []) :
    (init tasks L ht).intervalActive = true := by
  unfold init
  rw [if_neg h]

theorem init_settled_not_false (tasks : List Nat) (L : Nat) (ht : Bool) :
    (init tasks L ht).settled ≠ some false := by
  unfold init
  split
  · simp
  · exact fun hc => nomatch hc

theorem init_queueOk (tasks : List Nat) (L : Nat) (ht : Bool) :
    queueOk (init tasks L ht) := by
  unfold init
  split
  · intro s hs
    simp at hs
  · intro s hs
    exact fillAux_slotOk _ _ _
      (fun y hy => Or.inl (List.eq_of_mem_replicate hy)) s hs

theorem init_full (tasks : List Nat) (L : Nat) (ht : Bool) :
    ∀ s ∈ (init tasks L ht).queue, s = none → (init tasks L ht).taskToBeExcuted = [] := by
  unfold init
  split
  · intro s hs
    simp at hs
  · intro s hs hsn
    subst hsn
    exact fillAux_none_mem _ _ _ hs

theorem init_countPending (tasks : List Nat) (L : Nat) (ht : Bool)
    (h : tasks ≠ []) (hL : 1 ≤ L) : 0 < countPending (init tasks L ht) := by
  unfold init
  rw [if_neg h]
  show 0 < List.countP pendingP (fillAux (List.replicate L none) tasks []).1
  have hrep : (List.replicate L (none : Slot)).countP Option.isNone = L := by
    simp [List.countP_replicate]
  have r3 := (fillAux_counts (List.replicate L none) tasks []).2.2
  rw [hrep] at r3
  have hok : ∀ s ∈ (fillAux (List.replicate L none) tasks []).1, slotOk s :=
    fillAux_slotOk _ _ _ (fun y hy => Or.inl (List.eq_of_mem_replicate hy))
  have hsum := countP_pending_none _ hok
  rw [r3, fillAux_length, List.length_replicate] at hsum
  have h1 : 1 ≤ tasks.length := by
    cases tasks with
    | nil => exact absurd rfl h
    | cons a as => simp
  have hmin : 1 ≤ min L tasks.length := by omega
  omega

/- ===== claim C1 ===== -/

/-- Behaviour required of a scheduler batch over N all-succeeding tasks
under concurrency limit L: bounded outstanding work at every instant, no
double dispatch, no rejection, a successful completion in which every task
was dispatched exactly once, and for N = 0 an immediate resolve without
arming either timer. -/
def batchOk (N L : Nat) (ht : Bool) : Prop :=
  (∀ evs, countPending (run (init (List.range N) L ht) evs) ≤ L) ∧
  (∀ evs, ((run (init (List.range N) L ht) evs).started).Nodup) ∧
  (∀ evs, (∀ e ∈ evs, goodEv e = true) →
    (run (init (List.range N) L ht) evs).settled ≠ some false) ∧
  (∃ evs, (∀ e ∈ evs, goodEv e = true) ∧
    (run (init (List.range N) L ht) evs).settled = some true ∧
    ((run (init (List.range N) L ht) evs).started).reverse = List.range N) ∧
  (N = 0 → (init (List.range N) L ht).settled = some true ∧
    (init (List.range N) L ht).intervalActive = false ∧
    (init (List.range N) L ht).timeoutActive = false)

/-- C1: for every list of N all-succeeding tasks and every concurrency
limit L ≥ 1, a concurrentDo batch keeps at most L tasks outstanding at
every instant, never dispatches a task twice, never rejects, and some
schedule of task completions and interval ticks resolves it with every
task dispatched exactly once; in particular for N = 0 the call resolves
immediately without starting the interval or the timeout timer. -/
theorem concurrentDo_batch_ok (N L : Nat) (ht : Bool) (hL : 1 ≤ L) : batchOk N L ht := by
  refine ⟨?_, ?_, ?_, ?_, ?_⟩
  · intro evs
    have hlen : (run (init (List.range N) L ht) evs).queue.length ≤ L :=
      run_preserve (P := fun c => c.queue.length ≤ L)
        (fun c e h => by
          show (step c e).queue.length ≤ L
          rw [step_queue_length]
          exact h) evs _ (init_queue_length_le _ _ _)
    calc countPending (run (init (List.range N) L ht) evs)
        ≤ (run (init (List.range N) L ht) evs).queue.length := List.countP_le_length _
      _ ≤ L := hlen
  · intro evs
    have hinv := run_preserve (fun c e h => step_consumedInv (List.range N) c e h) evs _
      (init_consumedInv (List.range N) L ht)
    unfold consumedInv at hinv
    have h2 : ((run (init (List.range N) L ht) evs).taskToBeExcuted
        ++ ((run (init (List.range N) L ht) evs).started).reverse).Nodup := by
      rw [hinv]
      exact List.nodup_range N
    exact List.nodup_reverse.mp (List.Nodup.of_append_right h2)
  · intro evs hg
    exact run_preserve_good (fun c e he h => step_settled_good c e he h) evs hg _
      (init_settled_not_false _ _ _)
  · by_cases hN : N = 0
    · subst hN
      refine ⟨[], by simp, ?_, ?_⟩
      · show (init (List.range 0) L ht).settled = some true
        rw [List.range_zero]
        unfold init
        rw [if_pos rfl]
      · show ((init (List.range 0) L ht).started).reverse = List.range 0
        rw [List.range_zero]
        unfold init
        rw [if_pos rfl]
        rfl
    · have hne : List.range N ≠ [] := by
        intro hc
        have hlen := congrArg List.length hc
        simp at hlen
        exact hN hlen
      obtain ⟨evs, hg, h1, h2⟩ := drainA ((init (List.range N) L ht).taskToBeExcuted.length)
        (init (List.range N) L ht) rfl (init_settled_ne _ _ _ hne)
        (init_interval_ne _ _ _ hne) (init_countPending _ _ _ hne hL)
        (init_queueOk _ _ _) (init_full _ _ _)
      refine ⟨evs, hg, h1, ?_⟩
      have hinv := run_preserve (fun c e h => step_consumedInv (List.range N) c e h) evs _
        (init_consumedInv (List.range N) L ht)
      unfold consumedInv at hinv
      rw [h2] at hinv
      simpa using hinv
  · intro h
    subst h
    rw [List.range_zero]
    unfold init
    rw [if_pos rfl]
    exact ⟨rfl, rfl, rfl⟩

/-- C1 witness: the batch property instantiated at N = 3 tasks and limit
L = 2 with a timeout configured. -/
theorem concurrentDo_batch_ok_witness : 1 ≤ 2 ∧ batchOk 3 2 true :=
  ⟨by decide, concurrentDo_batch_ok 3 2 true (by decide)⟩

/- ===================================================================
   RetryingOperation: the while-loops of downloadSticker (index.ts
   98-117), uploadSticker (index.ts 140-163) and addSticker (index.ts
   196-225). attempt k is the outcome of the k-th invocation of the
   wrapped remote call; the loop variable times counts the failures so
   far, so the remaining fuel is budget - times. The trace records each
   invocation and each await delay(...) executed in the catch block; on
   exhaustion the loop throws a fixed BotError message and only logs the
   raw fault, so the surfaced error channel carries the domain message.
   =================================================================== -/

inductive REv
  | att (idx : Nat) (ok : Bool)
  | del (ms : Nat)
deriving DecidableEq

/-- Trace contribution of the catch block delay: downloadSticker has no
delay call, uploadSticker and addSticker run await delay(1000) after every
failed attempt. -/
def delTrace : Option Nat → List REv
  | some d => [.del d]
  | none => []

def retryAux {E A : Type} (attempt : Nat → Except E A) (delayAfterFail : Option Nat)
    (domainErr : String) : Nat → Nat → List REv → Except String A × Nat × List REv
  | 0, calls, tr => (.error domainErr, calls, tr)
  | fuel + 1, calls, tr =>
    match attempt calls with
    | .ok a => (.ok a, calls + 1, tr ++ [.att calls true])
    | .error _ =>
      retryAux attempt delayAfterFail domainErr fuel (calls + 1)
        (tr ++ [.att calls false] ++ delTrace delayAfterFail)

/-- A retry-wrapped operation: surfaced outcome, number of invocations of
the wrapped call, and the trace of attempts and delays. -/
def retryRun {E A : Type} (budget : Nat) (delayAfterFail : Option Nat)
    (domainErr : String) (attempt : Nat → Except E A) :
    Except String A × Nat × List REv :=
  retryAux attempt delayAfterFail domainErr budget 0 []

def downloadErr : String := "下载贴纸时出错了"

def uploadErr : String := "上传贴纸时出错了"

def addErr : String := "把贴纸们加进贴纸包时出错了"

/-- downloadSticker (index.ts 98-117): 3 attempts, no inter-attempt delay. -/
def downloadSticker {E A : Type} (attempt : Nat → Except E A) :
    Except String A × Nat × List REv :=
  retryRun 3 none downloadErr attempt

/-- uploadSticker (index.ts 140-163): 3 attempts, delay(1000) in the catch. -/
def uploadSticker {E A : Type} (attempt : Nat → Except E A) :
    Except String A × Nat × List REv :=
  retryRun 3 (some 1000) uploadErr attempt

/-- addSticker (index.ts 196-225): 5 attempts, delay(1000) in the catch. -/
def addSticker {E A : Type} (attempt : Nat → Except E A) :
    Except String A × Nat × List REv :=
  retryRun 5 (some 1000) addErr attempt

/-- Trace left by fuel consecutive failing attempts starting at index
calls: each failed attempt is followed by the configured delay. -/
def failTrace (delayAfterFail : Option Nat) : Nat → Nat → List REv
  | _, 0 => []
  | calls, fuel + 1 =>
    .att calls false :: (delTrace delayAfterFail ++ failTrace delayAfterFail (calls + 1) fuel)

theorem retryAux_allFail {E A : Type} (attempt : Nat → Except E A) (dopt : Option Nat)
    (d : String) (hfail : ∀ k, (attempt k).isOk = false) :
    ∀ (fuel calls : Nat) (tr : List REv),
      retryAux attempt dopt d fuel calls tr
        = (.error d, calls + fuel, tr ++ failTrace dopt calls fuel) := by
  intro fuel
  induction fuel with
  | zero =>
    intro calls tr
    simp [retryAux, failTrace]
  | succ fuel ih =>
    intro calls tr
    cases hk : attempt calls with
    | ok a =>
      have hko := hfail calls
      rw [hk] at hko
      simp [Except.isOk, Except.toBool] at hko
    | error e =>
      simp only [retryAux, hk]
      rw [ih (calls + 1)]
      have h1 : calls + 1 + fuel = calls + (fuel + 1) := by omega
      have h2 : tr ++ [REv.att calls false] ++ delTrace dopt ++ failTrace dopt (calls + 1) fuel
          = tr ++ failTrace dopt calls (fuel + 1) := by
        simp [failTrace, List.append_assoc]
      rw [h1, h2]

theorem retryAux_success {E A : Type} (attempt : Nat → Except E A) (dopt : Option Nat)
    (d : String) (j : Nat) (a : A) (hj : attempt j = .ok a)
    (hbefore : ∀ i, i < j → (attempt i).isOk = false) :
    ∀ (fuel calls : Nat) (tr : List REv), calls ≤ j → j < calls + fuel →
      retryAux attempt dopt d fuel calls tr
        = (.ok a, j + 1, tr ++ failTrace dopt calls (j - calls) ++ [.att j true]) := by
  intro fuel
  induction fuel with
  | zero =>
    intro calls tr hle hlt
    omega
  | succ fuel ih =>
    intro calls tr hle hlt
    by_cases hc : calls = j
    · subst hc
      simp only [retryAux, hj]
      simp [failTrace]
    · have hcl : calls < j := lt_of_le_of_ne hle hc
      have hf := hbefore calls hcl
      cases hk : attempt calls with
      | ok a2 =>
        rw [hk] at hf
        simp [Except.isOk, Except.toBool] at hf
      | error e =>
        simp only [retryAux, hk]
        rw [ih (calls + 1) _ (by omega) (by omega)]
        have hsub : j - calls = (j - (calls + 1)) + 1 := by omega
        rw [hsub]
        simp [failTrace, List.append_assoc]

/- ===== claims C5 and C6 ===== -/

/-- C5: a retry-wrapped operation with attempt budget A run against an
always-failing operation invokes it exactly A times and surfaces the
operation-specific domain error message (the raw fault is only logged,
never surfaced); when some attempt succeeds and all earlier ones failed,
the operation returns that value after exactly that many invocations, so
no further attempts follow a success. The budgets of the call sites are
the definitions downloadSticker (3), uploadSticker (3) and addSticker (5). -/
theorem retry_budget_and_domain_error {E A : Type} (budget : Nat) (dopt : Option Nat)
    (d : String) (attempt : Nat → Except E A) :
    ((∀ k, (attempt k).isOk = false) →
      (retryRun budget dopt d attempt).1 = .error d ∧
      (retryRun budget dopt d attempt).2.1 = budget) ∧
    (∀ j a, j < budget → attempt j = .ok a → (∀ i, i < j → (attempt i).isOk = false) →
      (retryRun budget dopt d attempt).1 = .ok a ∧
      (retryRun budget dopt d attempt).2.1 = j + 1) := by
  constructor
  · intro hfail
    rw [retryRun, retryAux_allFail attempt dopt d hfail budget 0 []]
    exact ⟨rfl, by simp⟩
  · intro j a hj hja hbef
    rw [retryRun, retryAux_success attempt dopt d j a hja hbef budget 0 [] (by omega) (by omega)]
    exact ⟨rfl, rfl⟩

/-- C5 witness: downloadSticker (budget 3, no delay) against an operation
that fails on every attempt surfaces the domain message after exactly 3
invocations. -/
theorem retry_budget_and_domain_error_witness :
    (downloadSticker (fun _ => (Except.error () : Except Unit Unit))).1
        = .error downloadErr ∧
    (downloadSticker (fun _ => (Except.error () : Except Unit Unit))).2.1 = 3 :=
  (retry_budget_and_domain_error 3 none downloadErr
    (fun _ => (Except.error () : Except Unit Unit))).1 (fun _ => rfl)

/-- C6 (counterexample): uploadSticker against an always-failing upload
runs a 1000ms delay AFTER its final (third) failing attempt — the delay
sits inside the catch block, so it also runs after the last attempt; its
full trace is attempt, delay, attempt, delay, attempt, delay. -/
theorem retry_delay_after_last_cex :
    (uploadSticker (fun _ => (Except.error () : Except Unit Unit))).2.2.getLast?
        = some (.del 1000) ∧
    (uploadSticker (fun _ => (Except.error () : Except Unit Unit))).2.2
        = [.att 0 false, .del 1000, .att 1 false, .del 1000, .att 2 false, .del 1000] := by
  decide

/-- C6 (amended): in a retry loop with a configured delay D, the delay
runs exactly after each FAILED attempt: never before the first attempt and
never after a successful attempt, but — unlike a purely between-attempts
delay — once after the final attempt when that attempt fails. The trace of
an all-failing run is A repetitions of attempt-then-delay, and the trace
of a run whose first success is attempt j is j repetitions of
attempt-then-delay followed by the successful attempt with no delay. -/
theorem retry_delay_placement {E A : Type} (budget D : Nat) (d : String)
    (attempt : Nat → Except E A) :
    ((∀ k, (attempt k).isOk = false) →
      (retryRun budget (some D) d attempt).2.2 = failTrace (some D) 0 budget) ∧
    (∀ j a, j < budget → attempt j = .ok a → (∀ i, i < j → (attempt i).isOk = false) →
      (retryRun budget (some D) d attempt).2.2
        = failTrace (some D) 0 j ++ [.att j true]) := by
  constructor
  · intro hfail
    rw [retryRun, retryAux_allFail attempt (some D) d hfail budget 0 []]
    simp
  · intro j a hj hja hbef
    rw [retryRun,
      retryAux_success attempt (some D) d j a hja hbef budget 0 [] (by omega) (by omega)]
    simp

/-- C6 witness: uploadSticker (budget 3, delay 1000) against an operation
failing twice then succeeding delays exactly twice, once after each failed
attempt and never after the final successful one. -/
theorem retry_delay_placement_witness :
    (retryRun 3 (some 1000) uploadErr
        (fun k => if k < 2 then (Except.error () : Except Unit Unit) else .ok ())).2.2
      = failTrace (some 1000) 0 2 ++ [.att 2 true] :=
  (retry_delay_placement 3 1000 uploadErr
      (fun k => if k < 2 then (Except.error () : Except Unit Unit) else .ok ())).2
    2 () (by omega) (by simp) (fun i hi => by
      have h2 : i < 2 := by omega
      simp [h2, Except.isOk, Except.toBool])

/- ===================================================================
   SessionGate: processingChat (index.ts 25) and the document handler
   (index.ts 29-242). busy is the processingChat record, uid the sender
   identity. The stages and progress replies inside the try block are
   abstracted by pipelineOk. A second event for a busy user throws the
   BotError of line 34, and the shared catch block of lines 232-241 then
   sets processingChat[userId] = false — the embedding keeps that
   behaviour faithfully.
   =================================================================== -/

inductive RunOutcome
  | completed
  | failed
  | rejected
deriving DecidableEq

/-- Effect of the document handler (index.ts 29-242) on the session gate:
test the flag (line 33), either throw the busy rejection (line 34, caught
at line 232 where the flag is cleared) or set the flag (line 36), run the
pipeline, and clear the flag on success (line 63) or in the catch block on
any thrown error (line 233). -/
def handleDocument (busy : Nat → Bool) (uid : Nat) (pipelineOk : Bool) :
    (Nat → Bool) × RunOutcome :=
  if busy uid then
    (fun u => if u = uid then false else busy u, .rejected)
  else
    let busy1 : Nat → Bool := fun u => if u = uid then true else busy u
    if pipelineOk then
      (fun u => if u = uid then false else busy1 u, .completed)
    else
      (fun u => if u = uid then false else busy1 u, .failed)

/-- C4 (code bug): a session-gate acquisition attempt for user 7, whose
session is already active, is rejected — but the rejection error is
handled by the same catch block as pipeline faults, which clears
processingChat for that user: the already-running session loses its busy
flag, so the gate state does not stay unchanged and the active run has its
gate released early by the rejected attempt. -/
theorem sessionGate_rejection_clears_flag :
    (fun u => u == 7 : Nat → Bool) 7 = true ∧
    (handleDocument (fun u => u == 7) 7 true).2 = .rejected ∧
    (handleDocument (fun u => u == 7) 7 true).1 7 = false := by
  decide

/- ===================================================================
   isLineSticker / isLineStickerSet (utils.ts 4-31) over parsed JSON
   values. In JS the test is key in obj together with a typeof check of
   obj.key, which holds exactly when the field is present with a value
   of that runtime type; lookupField captures both at once.
   =================================================================== -/

inductive JValue
  | jnum (n : Int)
  | jstr (s : String)
  | jbool (b : Bool)
  | jnull
  | jarr (elems : List JValue)
  | jobj (fields : List (String × JValue))

def keyId : String := "id"

def keyUrl : String := "url"

def keyEmojis : String := "emojis"

def keyName : String := "name"

def keyAuthor : String := "author"

def keyAuthorUrl : String := "authorUrl"

def keyMainImageUrl : String := "mainImageUrl"

def keyStickers : String := "stickers"

def lookupField : JValue → String → Option JValue
  | .jobj fields, k => fields.lookup k
  | _, _ => none

def isNumberField (v : JValue) (k : String) : Bool :=
  match lookupField v k with
  | some (.jnum _) => true
  | _ => false

def isStringField (v : JValue) (k : String) : Bool :=
  match lookupField v k with
  | some (.jstr _) => true
  | _ => false

/-- isLineSticker (utils.ts 4-13). -/
def isLineSticker (v : JValue) : Bool :=
  isNumberField v keyId && isStringField v keyUrl && isStringField v keyEmojis

/-- isLineStickerSet (utils.ts 15-31): the stickers check is
Array.isArray(obj.stickers) with an every over its elements, which an
empty array passes vacuously. -/
def isLineStickerSet (v : JValue) : Bool :=
  isNumberField v keyId && isStringField v keyName && isStringField v keyAuthor &&
  isStringField v keyAuthorUrl && isStringField v keyMainImageUrl &&
  (match lookupField v keyStickers with
   | some (.jarr xs) => xs.all isLineSticker
   | _ => false)

/-- The stickers array of a document, when present. -/
def stickersOf (v : JValue) : Option (List JValue) :=
  match lookupField v keyStickers with
  | some (.jarr xs) => some xs
  | _ => none

/-- stickerSet.stickers[0] as read by createStickerSet (index.ts 179):
defined only when the sequence is non-empty. -/
def firstSticker (v : JValue) : Option JValue :=
  (stickersOf v).bind List.head?

/-- A document that is well-formed for the validator but whose stickers
array is empty. -/
def emptySetDoc : JValue :=
  .jobj [(keyId, .jnum 1), (keyName, .jstr ("a")), (keyAuthor, .jstr ("b")),
         (keyAuthorUrl, .jstr ("c")), (keyMainImageUrl, .jstr ("d")),
         (keyStickers, .jarr [])]

/-- A well-formed document with exactly one sticker. -/
def oneStickerDoc : JValue :=
  .jobj [(keyId, .jnum 1), (keyName, .jstr ("a")), (keyAuthor, .jstr ("b")),
         (keyAuthorUrl, .jstr ("c")), (keyMainImageUrl, .jstr ("d")),
         (keyStickers, .jarr [.jobj [(keyId, .jnum 100), (keyUrl, .jstr ("u")),
           (keyEmojis, .jstr ("e"))]])]

/-- C7 (counterexample): isLineStickerSet accepts a document whose sticker
sequence is empty, because every over an empty array holds vacuously; for
that accepted document the first-item access of the set-creation stage is
undefined. -/
theorem isLineStickerSet_accepts_empty :
    isLineStickerSet emptySetDoc = true ∧
    stickersOf emptySetDoc = some [] ∧
    firstSticker emptySetDoc = none :=
  ⟨rfl, rfl, rfl⟩

/-- C7 (amended): every document accepted by isLineStickerSet carries a
stickers field holding an array all of whose elements are well-formed
stickers, but the array may be empty — non-emptiness is not validated —
and the first-item access of the set-creation stage is defined exactly
when the accepted array is non-empty. -/
theorem isLineStickerSet_shape (v : JValue) (h : isLineStickerSet v = true) :
    ∃ xs, stickersOf v = some xs ∧ xs.all isLineSticker = true ∧
      (firstSticker v = none ↔ xs = []) := by
  have hst : ∃ xs, lookupField v keyStickers = some (.jarr xs)
      ∧ xs.all isLineSticker = true := by
    unfold isLineStickerSet at h
    simp only [Bool.and_eq_true] at h
    have h6 := h.2
    cases hl : lookupField v keyStickers with
    | none =>
      rw [hl] at h6
      exact Bool.noConfusion h6
    | some w =>
      rw [hl] at h6
      cases w with
      | jarr xs => exact ⟨xs, rfl, h6⟩
      | jnum n => exact Bool.noConfusion h6
      | jstr s => exact Bool.noConfusion h6
      | jbool b => exact Bool.noConfusion h6
      | jnull => exact Bool.noConfusion h6
      | jobj f => exact Bool.noConfusion h6
  obtain ⟨xs, hl, hall⟩ := hst
  refine ⟨xs, ?_, hall, ?_⟩
  · unfold stickersOf
    rw [hl]
  · unfold firstSticker stickersOf
    rw [hl]
    cases xs with
    | nil => simp
    | cons a as => simp

/-- C7 witness: the one-sticker document is accepted and its shape fact
holds, with the first-item access defined. -/
theorem isLineStickerSet_shape_witness :
    isLineStickerSet oneStickerDoc = true ∧
    ∃ xs, stickersOf oneStickerDoc = some xs ∧ xs.all isLineSticker = true ∧
      (firstSticker oneStickerDoc = none ↔ xs = []) :=
  ⟨rfl, isLineStickerSet_shape oneStickerDoc rfl⟩

/- ===================================================================
   The cache partition of the handler (index.ts 44-52): a forEach over
   stickerSet.stickers testing the truthiness of
   existingImageIds[sticker.id]; a missing key reads as undefined and
   the empty string is falsy, so the test passes exactly for a present,
   non-empty cached artifact id. The LineSticker fields follow the
   validator of utils.ts and the usage in index.ts, since typings.ts is
   not part of the sources.
   =================================================================== -/

structure LineSticker where
  id : Nat
  url : String
  emojis : String
  image : Option (List Nat) := none
  fileId : Option String := none
deriving DecidableEq

/-- Truthiness of a Record-of-strings lookup: undefined and the empty
string are falsy. -/
def truthyId : Option String → Bool
  | some s => !(s == "")
  | none => false

/-- The partition loop (index.ts 44-52): an item with a truthy cached id
gets sticker.fileId set from the cache and goes to
stickersAlreadyUploaded; every other item goes to stickersToBeUploaded. -/
def partitionStickers (cache : Nat → Option String) :
    List LineSticker → List LineSticker × List LineSticker
  | [] => ([], [])
  | s :: rest =>
    let r := partitionStickers cache rest
    if truthyId (cache s.id) then
      ({ s with fileId := cache s.id } :: r.1, r.2)
    else
      (r.1, s :: r.2)

/-- A cache holding an entry whose artifact id is the empty string. -/
def emptyIdCache : Nat → Option String :=
  fun i => if i = 1 then some ("") else none

def cexSticker : LineSticker :=
  { id := 1, url := "u", emojis := "e" }

/-- C8 (counterexample): item 1 has an entry in the cache read at session
start, but the entry is the empty string, which is falsy; the partition
therefore routes the item to needs-upload and leaves its fileId unset,
although the claim places every item whose identity has a cache entry in
the already-uploaded partition with its artifact id set. -/
theorem partition_empty_entry_cex :
    (emptyIdCache 1).isSome = true ∧
    partitionStickers emptyIdCache [cexSticker] = ([], [cexSticker]) := by
  decide

/-- C8 (amended): the partition places every item of the set in exactly
one of the two partitions — in already-uploaded, with fileId set to the
cached value, exactly when the cache maps its identity to a truthy
(present and non-empty) artifact id, and in needs-upload otherwise — and
both partitions preserve the original relative order, each being a filter
of the input list. -/
theorem partition_characterization (cache : Nat → Option String) (l : List LineSticker) :
    partitionStickers cache l
      = ((l.filter fun s => truthyId (cache s.id)).map
           (fun s => { s with fileId := cache s.id }),
         l.filter fun s => !(truthyId (cache s.id))) := by
  induction l with
  | nil => rfl
  | cons s rest ih =>
    cases h : truthyId (cache s.id) with
    | true => simp [partitionStickers, ih, List.filter_cons, h]
    | false => simp [partitionStickers, ih, List.filter_cons, h]

/- ===================================================================
   The pipeline of the document handler as its sequence of awaited
   actions (index.ts 37-64 together with the log calls inside the stage
   functions). Every action is awaited in order inside one try block
   whose catch ends the run, so the first failing action — progress
   notify or stage alike — aborts everything after it.
   =================================================================== -/

inductive ActionKind
  | notify
  | stage
deriving DecidableEq

/-- The awaited actions of one run in source order: the receipt reply
(line 37), fetchStickerSetObject (line 40), retrieveImageIds (line 44),
the download stage with its two progress replies (lines 85-96), the
process stage with its two replies (lines 121-127), the upload stage with
its two replies (lines 131-138), addImageIds (line 57), createStickerSet
and its reply (lines 59, 178-185), the add stage and its preceding reply
(lines 61, 188-194), and the final success reply (line 64). -/
def pipelineActions : List ActionKind :=
  [.notify, .stage, .stage,
   .notify, .stage, .notify,
   .notify, .stage, .notify,
   .notify, .stage, .notify,
   .stage, .stage, .notify,
   .notify, .stage, .notify]

/-- Run the actions in order: ok k tells whether the k-th awaited action
succeeds; the first failure throws to the catch block (index.ts 232-241),
which ends the run as failed after k + 1 executed actions. -/
def runActs (ok : Nat → Bool) : List ActionKind → Nat → RunOutcome × Nat
  | [], k => (.completed, k)
  | _ :: rest, k => if ok k then runActs ok rest (k + 1) else (.failed, k + 1)

def runPipeline (ok : Nat → Bool) : RunOutcome × Nat :=
  runActs ok pipelineActions 0

/-- C9 (counterexample): with every stage succeeding, failing only the
very first progress notify flips the terminal outcome from completed to
failed and stops the run after a single action: notify failures are fatal,
because every log call is awaited inside the same try block as the stages
with no error handling of its own. -/
theorem notify_failure_changes_outcome_cex :
    (runPipeline (fun _ => true)).1 = .completed ∧
    (runPipeline (fun k => !(k == 0))).1 = .failed ∧
    (runPipeline (fun k => !(k == 0))).2 = 1 ∧
    pipelineActions.get? 0 = some .notify := by
  decide

theorem runActs_first_failure (ok : Nat → Bool) :
    ∀ (acts : List ActionKind) (j k : Nat), j < acts.length →
      (∀ i, i < j → ok (k + i) = true) → ok (k + j) = false →
      runActs ok acts k = (.failed, k + j + 1) := by
  intro acts
  induction acts with
  | nil =>
    intro j k hj
    simp at hj
  | cons a rest ih =>
    intro j k hj hbef hfail
    cases j with
    | zero =>
      have h0 : ok k = false := by simpa using hfail
      simp [runActs, h0]
    | succ j =>
      have hk : ok k = true := by
        have h0 := hbef 0 (by omega)
        simpa using h0
      simp only [runActs, hk, if_true]
      have h1 := ih j (k + 1)
        (by simp only [List.length_cons] at hj; omega)
        (fun i hi => by
          have h2 := hbef (i + 1) (by omega)
          have h3 : k + 1 + i = k + (i + 1) := by omega
          rw [h3]
          exact h2)
        (by
          have h3 : k + 1 + j = k + (j + 1) := by omega
          rw [h3]
          exact hfail)
      rw [h1]
      have h4 : k + 1 + j + 1 = k + (j + 1) + 1 := by omega
      rw [h4]

/-- C9 (amended): a failing progress notify is fatal to the pipeline: when
the actions before index j all succeed and action j fails — notify and
stage alike — the run stops with terminal outcome failed after j + 1
actions, so none of the later stages execute and the terminal outcome does
depend on the notify results. -/
theorem pipeline_first_failure_aborts (ok : Nat → Bool) (j : Nat)
    (hj : j < pipelineActions.length)
    (hbefore : ∀ i, i < j → ok i = true) (hfail : ok j = false) :
    runPipeline ok = (.failed, j + 1) := by
  unfold runPipeline
  have h := runActs_first_failure ok pipelineActions j 0 hj
    (fun i hi => by simpa using hbefore i hi)
    (by simpa using hfail)
  simpa using h

/-- C9 witness: failing the download-stage progress notify (action index
3) with every other action succeeding ends the run failed after 4 actions. -/
theorem pipeline_first_failure_aborts_witness :
    runPipeline (fun k => !(k == 3)) = (.failed, 4) :=
  pipeline_first_failure_aborts (fun k => !(k == 3)) 3 (by decide)
    (fun i hi => by
      have hne : i ≠ 3 := by omega
      simp [hne])
    (by decide)

end StickersL2T
